import Mathlib

/-!
Verification of the PR review service core (token cache, diff position
mapper, chunk planner, AI response recoverer, comment aggregation).

The definitions below are shallow embeddings of the TypeScript source:
strings are processed at the character-list level (JS `split`, `trim`,
regex matches are modelled by explicit character scanners with the same
semantics), fallible operations (`JSON.parse`, property access on
`null`/`undefined`) live in `Except`, and `try`/`catch` blocks are
modelled by matching on the `Except` result.
-/

namespace CodeReview

/-! ## Character-level string utilities (JS `split("\n")`, `trim`, …) -/

/-- JS whitespace class (the characters relevant to `trim` and `\s` for
the inputs this service handles). -/
def jsIsWs (c : Char) : Bool :=
  c = ' ' || c = '\t' || c = '\n' || c = '\r' || c = '\x0b' || c = '\x0c' ||
  c.toNat = 0xa0 || c.toNat = 0xfeff

/-- `s.split("\n")` on character lists: split at every newline, keeping
empty segments (so `[]` yields `[[]]`, like JS `"".split("\n") = [""]`). -/
def splitNLc : List Char → List (List Char)
  | [] => [[]]
  | c :: cs =>
    if c = '\n' then [] :: splitNLc cs
    else
      match splitNLc cs with
      | [] => [[c]]
      | g :: gs => (c :: g) :: gs

/-- `lines.join("\n")` on character lists. -/
def joinNLc : List (List Char) → List Char
  | [] => []
  | [g] => g
  | g :: gs => g ++ '\n' :: joinNLc gs

/-- `content.split("\n")` as a list of strings. -/
def splitNL (s : String) : List String :=
  (splitNLc s.data).map String.mk

/-- `lines.join("\n")` as a string. -/
def joinNL (lines : List String) : String :=
  String.mk (joinNLc (lines.map String.data))

theorem splitNLc_ne_nil (l : List Char) : splitNLc l ≠ [] := by
  induction l with
  | nil => simp [splitNLc]
  | cons c cs ih =>
    simp only [splitNLc]
    split
    · simp
    · cases h : splitNLc cs <;> simp

theorem joinNLc_splitNLc (l : List Char) : joinNLc (splitNLc l) = l := by
  induction l with
  | nil => rfl
  | cons c cs ih =>
    simp only [splitNLc]
    split
    · subst_vars
      cases h : splitNLc cs with
      | nil => exact absurd h (splitNLc_ne_nil cs)
      | cons g gs =>
        rw [h] at ih
        cases gs <;> simpa [joinNLc] using ih
    · cases h : splitNLc cs with
      | nil => exact absurd h (splitNLc_ne_nil cs)
      | cons g gs =>
        rw [h] at ih
        cases gs <;> simpa [joinNLc] using ih

theorem joinNL_splitNL (s : String) : joinNL (splitNL s) = s := by
  cases s with
  | mk data =>
    simp only [joinNL, splitNL, List.map_map]
    rw [show String.data ∘ String.mk = id from rfl, List.map_id, joinNLc_splitNLc]

/-! ## ChunkPlanner: `splitFileIntoChunks` (ai-review.service, lines 149-197) -/

/-- A chunk of file content with 1-indexed inclusive line bounds. -/
structure FileChunk where
  content : String
  startLine : Nat
  endLine : Nat

/-- Loop body of `splitFileIntoChunks`: iterate over the remaining lines,
accumulating the current chunk (`cur`, with its accumulated size `size`
counting each line's length plus one for the newline) and closing it when
adding the next line would exceed `maxChunkSize` and the chunk is
non-empty. -/
def splitChunksAux (maxChunkSize : Nat) : List String → List String → Nat → Nat → List FileChunk
  | [], cur, _, startLine =>
    if cur.length > 0 then [⟨joinNL cur, startLine, startLine + cur.length - 1⟩] else []
  | l :: ls, cur, size, startLine =>
    let lineSize := l.length + 1
    if size + lineSize > maxChunkSize ∧ cur.length > 0 then
      ⟨joinNL cur, startLine, startLine + cur.length - 1⟩ ::
        splitChunksAux maxChunkSize ls [l] lineSize (startLine + cur.length)
    else
      splitChunksAux maxChunkSize ls (cur ++ [l]) (size + lineSize) startLine

/-- `splitFileIntoChunks(content, maxChunkSize)`: split content at line
boundaries into chunks of at most `maxChunkSize` characters (a single
oversized line gets its own chunk). -/
def splitFileIntoChunks (content : String) (maxChunkSize : Nat) : List FileChunk :=
  splitChunksAux maxChunkSize (splitNL content) [] 0 1

/-- Reference shape: the chunk list determined by a partition of the lines
into consecutive groups, starting at line number `start`. -/
def chunksOfGroups : List (List String) → Nat → List FileChunk
  | [], _ => []
  | g :: gs, start =>
    ⟨joinNL g, start, start + g.length - 1⟩ :: chunksOfGroups gs (start + g.length)

theorem splitChunksAux_spec (B : Nat) :
    ∀ (ls cur : List String) (size startLine : Nat), cur ≠ [] →
    ∃ gs : List (List String), (∀ g ∈ gs, g ≠ []) ∧ gs.flatten = cur ++ ls ∧
      splitChunksAux B ls cur size startLine = chunksOfGroups gs startLine := by
  intro ls
  induction ls with
  | nil =>
    intro cur size startLine hcur
    refine ⟨[cur], by simpa using hcur, by simp, ?_⟩
    simp [splitChunksAux, chunksOfGroups, List.length_pos.mpr hcur]
  | cons l ls ih =>
    intro cur size startLine hcur
    by_cases hclose : size + (l.length + 1) > B ∧ cur.length > 0
    · obtain ⟨gs, hne, hjoin, heq⟩ := ih [l] (l.length + 1) (startLine + cur.length) (by simp)
      refine ⟨cur :: gs, ?_, ?_, ?_⟩
      · intro g hg
        rcases List.mem_cons.mp hg with h | h
        · subst h; exact hcur
        · exact hne g h
      · simp [hjoin]
      · simp only [splitChunksAux, if_pos hclose, chunksOfGroups, heq]
    · obtain ⟨gs, hne, hjoin, heq⟩ := ih (cur ++ [l]) (size + (l.length + 1)) startLine (by simp)
      refine ⟨gs, hne, by simp [hjoin], ?_⟩
      simp only [splitChunksAux, if_neg hclose, heq]

theorem splitFileIntoChunks_groups (C : String) (B : Nat) :
    ∃ gs : List (List String), (∀ g ∈ gs, g ≠ []) ∧ gs.flatten = splitNL C ∧
      splitFileIntoChunks C B = chunksOfGroups gs 1 := by
  unfold splitFileIntoChunks
  have hne : splitNL C ≠ [] := by
    simp only [splitNL]
    intro h
    exact splitNLc_ne_nil C.data (by simpa using h)
  cases hsplit : splitNL C with
  | nil => exact absurd hsplit hne
  | cons l ls =>
    obtain ⟨gs, h1, h2, h3⟩ := splitChunksAux_spec B ls [l] (l.length + 1) 1 (by simp)
    refine ⟨gs, h1, by simp [h2], ?_⟩
    simpa [splitChunksAux] using h3

theorem chunksOfGroups_map_content (gs : List (List String)) (start : Nat) :
    (chunksOfGroups gs start).map FileChunk.content = gs.map joinNL := by
  induction gs generalizing start with
  | nil => rfl
  | cons g rest ih => simp [chunksOfGroups, ih]

theorem joinNLc_append (a b : List (List Char)) (ha : a ≠ []) (hb : b ≠ []) :
    joinNLc (a ++ b) = joinNLc a ++ '\n' :: joinNLc b := by
  induction a with
  | nil => exact absurd rfl ha
  | cons x a' ih =>
    cases a' with
    | nil =>
      cases b with
      | nil => exact absurd rfl hb
      | cons y bs => simp [joinNLc]
    | cons x2 a2 =>
      have ihb : joinNLc (x2 :: a2 ++ b) = joinNLc (x2 :: a2) ++ '\n' :: joinNLc b :=
        ih (by simp)
      show x ++ '\n' :: joinNLc (x2 :: a2 ++ b) =
        (x ++ '\n' :: joinNLc (x2 :: a2)) ++ '\n' :: joinNLc b
      rw [ihb]
      simp

theorem joinNLc_map_flatten (gss : List (List (List Char))) (h : ∀ g ∈ gss, g ≠ []) :
    joinNLc (gss.map joinNLc) = joinNLc gss.flatten := by
  induction gss with
  | nil => rfl
  | cons g rest ih =>
    cases rest with
    | nil => simp [joinNLc]
    | cons g2 r2 =>
      have hg : g ≠ [] := h g (by simp)
      have hrest : (g2 :: r2).flatten ≠ [] := by
        have hg2 : g2 ≠ [] := h g2 (by simp)
        cases g2 with
        | nil => exact absurd rfl hg2
        | cons c cs => simp
      calc joinNLc ((g :: g2 :: r2).map joinNLc)
          = joinNLc g ++ '\n' :: joinNLc ((g2 :: r2).map joinNLc) := rfl
        _ = joinNLc g ++ '\n' :: joinNLc (g2 :: r2).flatten := by
              rw [ih (fun x hx => h x (List.mem_cons_of_mem _ hx))]
        _ = joinNLc (g ++ (g2 :: r2).flatten) :=
              (joinNLc_append _ _ hg hrest).symm
        _ = joinNLc (g :: g2 :: r2).flatten := by simp

theorem joinNL_map_of_groups (gs : List (List String)) (h : ∀ g ∈ gs, g ≠ []) :
    joinNL (gs.map joinNL) = joinNL gs.flatten := by
  show String.mk (joinNLc ((gs.map joinNL).map String.data)) =
       String.mk (joinNLc (gs.flatten.map String.data))
  have h1 : (gs.map joinNL).map String.data =
      (gs.map (fun g => g.map String.data)).map joinNLc := by
    simp [List.map_map, Function.comp, joinNL]
  have h2 : ∀ g ∈ gs.map (fun g => g.map String.data), g ≠ [] := by
    intro g hg
    obtain ⟨g0, hg0, rfl⟩ := List.mem_map.mp hg
    simpa using h g0 hg0
  rw [h1, joinNLc_map_flatten _ h2]
  congr 1
  congr 1
  simp [List.map_flatten]

theorem chunksOfGroups_chain (gs : List (List String)) (h : ∀ g ∈ gs, g ≠ [])
    (start : Nat) :
    List.Chain' (fun a b => a.endLine + 1 = b.startLine) (chunksOfGroups gs start) := by
  induction gs generalizing start with
  | nil => simp [chunksOfGroups]
  | cons g rest ih =>
    cases rest with
    | nil => simp [chunksOfGroups]
    | cons g2 r2 =>
      have hg : g ≠ [] := h g (by simp)
      have hlen : 0 < g.length := List.length_pos.mpr hg
      simp only [chunksOfGroups]
      refine List.chain'_cons.mpr ⟨?_, ?_⟩
      · show start + g.length - 1 + 1 = start + g.length
        omega
      · have := ih (fun x hx => h x (List.mem_cons_of_mem _ hx)) (start + g.length)
        simpa [chunksOfGroups] using this

/-- C2: for every file content string C and character budget B, the chunks
returned by `splitFileIntoChunks` are contiguous and line-aligned: joining
the chunks' contents with single newlines reproduces C byte-for-byte, every
adjacent pair satisfies `chunk[i].endLine + 1 = chunk[i+1].startLine`, and
every chunk's content is the newline-join of a consecutive group of whole
lines of C (no chunk boundary splits a line). -/
theorem splitFileIntoChunks_correct (C : String) (B : Nat) :
    joinNL ((splitFileIntoChunks C B).map FileChunk.content) = C
    ∧ (∀ (i : Nat) (h : i + 1 < (splitFileIntoChunks C B).length),
        ((splitFileIntoChunks C B).get ⟨i, Nat.lt_of_succ_lt h⟩).endLine + 1 =
        ((splitFileIntoChunks C B).get ⟨i + 1, h⟩).startLine)
    ∧ ∃ groups : List (List String),
        (∀ g ∈ groups, g ≠ []) ∧ groups.flatten = splitNL C ∧
        (splitFileIntoChunks C B).map FileChunk.content = groups.map joinNL := by
  obtain ⟨gs, hne, hflat, heq⟩ := splitFileIntoChunks_groups C B
  refine ⟨?_, ?_, gs, hne, hflat, by rw [heq, chunksOfGroups_map_content]⟩
  · rw [heq, chunksOfGroups_map_content, joinNL_map_of_groups gs hne, hflat,
      joinNL_splitNL]
  · intro i h
    have hchain := chunksOfGroups_chain gs hne 1
    rw [← heq] at hchain
    exact List.chain'_iff_get.mp hchain i (by omega)

/-- Witness for C2 at a concrete input: three one-character lines with a
budget of 1 give three chunks with adjacent line ranges. -/
theorem splitFileIntoChunks_correct_witness :
    1 + 1 < (splitFileIntoChunks "a\nb\nc" 1).length ∧
    ((splitFileIntoChunks "a\nb\nc" 1).get ⟨1, by decide⟩).endLine + 1 =
    ((splitFileIntoChunks "a\nb\nc" 1).get ⟨2, by decide⟩).startLine :=
  ⟨by decide, (splitFileIntoChunks_correct "a\nb\nc" 1).2.1 1 (by decide)⟩

/-! ## DiffPositionMapper: `calculatePositionFromPatch`
(github-api.service.ts, lines 71-215) -/

/-- Diff side: old file (LEFT) or new file (RIGHT). -/
inductive Side
  | LEFT
  | RIGHT
deriving DecidableEq

/-- Result of a (patch, line, side) position query. -/
structure PositionCalculationResult where
  position : Option Nat
  isUnchanged : Bool
  isAdded : Bool
  reason : Option String
deriving DecidableEq

def unchangedReason : String :=
  "Line is unchanged (context line). GitHub does not allow inline comments on unchanged lines."

def notFoundResult : PositionCalculationResult :=
  ⟨none, false, false, some "Line not found in diff patch"⟩

def noPatchResult : PositionCalculationResult :=
  ⟨none, false, false, some "No patch provided"⟩

/-- Value of a (non-empty) ASCII digit run, as `parseInt(-, 10)`. -/
def digitsToNat (ds : List Char) : Nat :=
  ds.foldl (fun acc c => acc * 10 + (c.toNat - '0'.toNat)) 0

/-- Parse `\d+(?:,(\d+))?`: a digit run, optionally followed by a comma and
a second digit run (the optional group only participates when digits follow
the comma, matching regex backtracking). Returns the values and the rest. -/
def parseNumPair (cs : List Char) : Option (Nat × Option Nat × List Char) :=
  let ds := cs.takeWhile Char.isDigit
  if ds.isEmpty then none
  else
    let rest := cs.dropWhile Char.isDigit
    match rest with
    | ',' :: rest2 =>
      let ds2 := rest2.takeWhile Char.isDigit
      if ds2.isEmpty then some (digitsToNat ds, none, rest)
      else some (digitsToNat ds, some (digitsToNat ds2), rest2.dropWhile Char.isDigit)
    | _ => some (digitsToNat ds, none, rest)

/-- Model of the hunk header regex
`^@@ -(\d+)(?:,(\d+))? \+(\d+)(?:,(\d+))? @@`: returns
`(oldStart, oldCount?, newStart, newCount?)` when the line matches. -/
def parseHunkHeader (line : String) : Option (Nat × Option Nat × Nat × Option Nat) :=
  match line.data with
  | '@' :: '@' :: ' ' :: '-' :: rest =>
    match parseNumPair rest with
    | none => none
    | some (o, oc, rest1) =>
      match rest1 with
      | ' ' :: '+' :: rest2 =>
        match parseNumPair rest2 with
        | none => none
        | some (n, nc, rest3) =>
          match rest3 with
          | ' ' :: '@' :: '@' :: _ => some (o, oc, n, nc)
          | _ => none
      | _ => none
  | _ => none

/-- First character of a string (`line.startsWith(c)` for one-character
prefixes is `firstChar line = some c`). -/
def firstChar (s : String) : Option Char := s.data.head?

/-- The scanning loop of `calculatePositionFromPatch` over the patch lines.
State: `inHunk` (is `currentHunkStart` non-null), the old/new file line
counters, and the position-in-hunk counter. Also returns the matched diff
line (as an observation; the source returns only the result record).
An omitted hunk-header count is taken as 0, exactly as in the source
(`hunkMatch[2] ? parseInt(hunkMatch[2], 10) : 0`). -/
def walkPatch (side : Side) (targetLine : Int) :
    List String → Bool → Int → Int → Nat → Option String × PositionCalculationResult
  | [], _, _, _, _ => (none, notFoundResult)
  | line :: rest, inHunk, oldL, newL, pos =>
    match parseHunkHeader line with
    | some (oldStart, oldCnt, newStart, newCnt) =>
      let oldCount : Int := (oldCnt.getD 0 : Nat)
      let newCount : Int := (newCnt.getD 0 : Nat)
      match side with
      | .RIGHT =>
        if newCount = 0 then walkPatch side targetLine rest false oldL newL pos
        else if targetLine < (newStart : Int) ∨ (newStart : Int) + newCount - 1 < targetLine then
          walkPatch side targetLine rest false oldL newL pos
        else walkPatch side targetLine rest true (oldStart : Int) (newStart : Int) 0
      | .LEFT =>
        if oldCount = 0 then walkPatch side targetLine rest false oldL newL pos
        else if targetLine < (oldStart : Int) ∨ (oldStart : Int) + oldCount - 1 < targetLine then
          walkPatch side targetLine rest false oldL newL pos
        else walkPatch side targetLine rest true (oldStart : Int) (newStart : Int) 0
    | none =>
      if inHunk = false then walkPatch side targetLine rest inHunk oldL newL pos
      else if firstChar line ≠ some '+' ∧ firstChar line ≠ some '-' ∧ firstChar line ≠ some ' ' then
        walkPatch side targetLine rest inHunk oldL newL pos
      else
        match side with
        | .RIGHT =>
          if firstChar line = some '+' ∨ firstChar line = some ' ' then
            if newL = targetLine then
              (some line,
                ⟨some (pos + 1), firstChar line == some ' ', firstChar line == some '+',
                  if firstChar line = some ' ' then some unchangedReason else none⟩)
            else walkPatch side targetLine rest inHunk oldL (newL + 1) (pos + 1)
          else walkPatch side targetLine rest inHunk (oldL + 1) newL (pos + 1)
        | .LEFT =>
          if firstChar line = some '-' ∨ firstChar line = some ' ' then
            if oldL = targetLine then
              (some line,
                ⟨some (pos + 1), firstChar line == some ' ', false,
                  if firstChar line = some ' ' then some unchangedReason else none⟩)
            else walkPatch side targetLine rest inHunk (oldL + 1) newL (pos + 1)
          else walkPatch side targetLine rest inHunk oldL (newL + 1) (pos + 1)

/-- `calculatePositionFromPatch` together with the matched diff line. A
missing patch (`undefined`) and the empty string are both falsy in
`if (!patch)`. The target line is `Math.max(1, Math.floor(n))`. -/
def calcPositionWithLine (patch : Option String) (fileLineNumber : Int) (side : Side) :
    Option String × PositionCalculationResult :=
  match patch with
  | none => (none, noPatchResult)
  | some p =>
    if p = "" then (none, noPatchResult)
    else walkPatch side (max 1 fileLineNumber) (splitNL p) false 0 0 0

/-- `calculatePositionFromPatch(patch, fileLineNumber, side)`. -/
def calculatePositionFromPatch (patch : Option String) (fileLineNumber : Int)
    (side : Side) : PositionCalculationResult :=
  (calcPositionWithLine patch fileLineNumber side).2

theorem walkPatch_isAdded_of_left (target : Int) :
    ∀ (lines : List String) (inHunk : Bool) (oldL newL : Int) (pos : Nat),
      (walkPatch Side.LEFT target lines inHunk oldL newL pos).2.isAdded = false := by
  intro lines
  induction lines with
  | nil => intro inHunk oldL newL pos; rfl
  | cons line rest ih =>
    intro inHunk oldL newL pos
    simp only [walkPatch]
    repeat' split
    all_goals first
      | apply ih
      | rfl

theorem walkPatch_isUnchanged_spec (side : Side) (target : Int) :
    ∀ (lines : List String) (inHunk : Bool) (oldL newL : Int) (pos : Nat),
      (walkPatch side target lines inHunk oldL newL pos).2.isUnchanged = true →
      ∃ l p, (walkPatch side target lines inHunk oldL newL pos).1 = some l ∧
        firstChar l = some ' ' ∧
        (walkPatch side target lines inHunk oldL newL pos).2.position = some p := by
  intro lines
  induction lines with
  | nil =>
    intro inHunk oldL newL pos h
    exact absurd h (by simp [walkPatch, notFoundResult])
  | cons line rest ih =>
    intro inHunk oldL newL pos
    simp only [walkPatch]
    repeat' split
    all_goals first
      | exact fun h => ih _ _ _ _ h
      | (intro h
         refine ⟨line, pos + 1, rfl, ?_, rfl⟩
         simpa using h)

theorem calcPosition_isUnchanged_matched (patch : Option String) (n : Int) (side : Side)
    (h : (calculatePositionFromPatch patch n side).isUnchanged = true) :
    ∃ l p, (calcPositionWithLine patch n side).1 = some l ∧ firstChar l = some ' ' ∧
      (calculatePositionFromPatch patch n side).position = some p := by
  cases patch with
  | none =>
    exact absurd h (by simp [calculatePositionFromPatch, calcPositionWithLine, noPatchResult])
  | some p =>
    by_cases hp : p = ""
    · exact absurd h
        (by simp [calculatePositionFromPatch, calcPositionWithLine, hp, noPatchResult])
    · simp only [calculatePositionFromPatch, calcPositionWithLine, if_neg hp] at h ⊢
      exact walkPatch_isUnchanged_spec side (max 1 n) (splitNL p) false 0 0 0 h

/-- C7: for every patch, requested line and side, the query result has
`isUnchanged = true` only when the matched diff line is a context line
(space prefix), and never has `isAdded = true` when the side is LEFT. -/
theorem calculatePosition_context_and_left (patch : Option String) (n : Int) (side : Side) :
    ((calculatePositionFromPatch patch n side).isAdded = true → side = Side.RIGHT)
    ∧ ((calculatePositionFromPatch patch n side).isUnchanged = true →
        ∃ l, (calcPositionWithLine patch n side).1 = some l ∧ firstChar l = some ' ') := by
  constructor
  · intro h
    cases side with
    | RIGHT => rfl
    | LEFT =>
      exfalso
      cases patch with
      | none =>
        exact absurd h
          (by simp [calculatePositionFromPatch, calcPositionWithLine, noPatchResult])
      | some p =>
        by_cases hp : p = ""
        · exact absurd h
            (by simp [calculatePositionFromPatch, calcPositionWithLine, hp, noPatchResult])
        · simp only [calculatePositionFromPatch, calcPositionWithLine, if_neg hp] at h
          rw [walkPatch_isAdded_of_left] at h
          exact Bool.false_ne_true h
  · intro h
    obtain ⟨l, _, h1, h2, _⟩ := calcPosition_isUnchanged_matched patch n side h
    exact ⟨l, h1, h2⟩

/-- Witness for C7: a context-line query on RIGHT returns
`isUnchanged = true` with the space-prefixed matched line, and an
addition-line query has `isAdded = true` on RIGHT. -/
theorem calculatePosition_context_and_left_witness :
    ((calculatePositionFromPatch (some "@@ -1,1 +1,1 @@\n-a\n+b") 1 Side.RIGHT).isAdded = true
      ∧ Side.RIGHT = Side.RIGHT)
    ∧ ((calculatePositionFromPatch (some "@@ -1,2 +1,2 @@\n ctx\n+new") 1 Side.RIGHT).isUnchanged = true
      ∧ ∃ l, (calcPositionWithLine (some "@@ -1,2 +1,2 @@\n ctx\n+new") 1 Side.RIGHT).1 = some l
          ∧ firstChar l = some ' ') :=
  ⟨⟨by decide,
    (calculatePosition_context_and_left (some "@@ -1,1 +1,1 @@\n-a\n+b") 1 Side.RIGHT).1
      (by decide)⟩,
   ⟨by decide,
    (calculatePosition_context_and_left (some "@@ -1,2 +1,2 @@\n ctx\n+new") 1 Side.RIGHT).2
      (by decide)⟩⟩

/-- C6: with an absent patch (undefined or the empty string, both falsy in
`if (!patch)`), the query returns `position = null`,
`reason = "No patch provided"`, `isUnchanged = false`, `isAdded = false`,
for every line number and side, without raising. -/
theorem calculatePosition_no_patch (n : Int) (side : Side) :
    calculatePositionFromPatch none n side =
      ⟨none, false, false, some "No patch provided"⟩
    ∧ calculatePositionFromPatch (some "") n side =
      ⟨none, false, false, some "No patch provided"⟩ :=
  ⟨rfl, rfl⟩

/-- C4: the source treats an omitted hunk-header count as 0
(`hunkMatch[2] ? parseInt(...) : 0`), not as 1 as the standard
unified-diff grammar prescribes. The hunk `@@ -3 +3 @@` (a one-line change
on each side per the standard) is therefore skipped as having no new
lines, and the query for line 3 on RIGHT returns no position, while the
equivalent explicit header `@@ -3,1 +3,1 @@` yields position 2. -/
theorem hunkHeader_omitted_count_treated_as_zero :
    parseHunkHeader "@@ -3 +3 @@" = some (3, none, 3, none)
    ∧ calculatePositionFromPatch (some "@@ -3 +3 @@\n-old\n+new") 3 Side.RIGHT =
        ⟨none, false, false, some "Line not found in diff patch"⟩
    ∧ calculatePositionFromPatch (some "@@ -3,1 +3,1 @@\n-old\n+new") 3 Side.RIGHT =
        ⟨some 2, false, true, none⟩ :=
  ⟨by decide, by decide, by decide⟩

/-! ## Caller comment dispatch (github-webhook.service, `handlePullRequestEvent`
per-comment loop, lines 367-434) -/

/-- A per-file review comment as returned by `reviewFile`. -/
structure FileReviewComment where
  file : String
  line : Option Int
  body : String

/-- An entry of `allComments` collected by `handlePullRequestEvent`. -/
structure CollectedComment where
  body : String
  file : String
  line : Option Int
deriving DecidableEq

/-- JS falsiness of `fileChange.patch` (`undefined` or the empty string). -/
def patchFalsy : Option String → Bool
  | none => true
  | some p => p = ""

/-- Body of the `for (const comment of fileComments)` loop: what a single
candidate comment contributes to `allComments`. A truthy line number is
validated against the patch: position `null` and context lines are dropped
(`continue`), deletions and missing patches are demoted to general
comments, additions keep their line. -/
def processOneComment (filename : String) (patch : Option String)
    (c : FileReviewComment) : List CollectedComment :=
  let filePath := if c.file = filename then c.file else filename
  match c.line with
  | some l =>
    if l = 0 then [⟨c.body, filePath, none⟩]
    else if patchFalsy patch then [⟨c.body, filePath, none⟩]
    else
      let pr := calculatePositionFromPatch patch l Side.RIGHT
      match pr.position with
      | none => []
      | some _ =>
        if pr.isUnchanged then []
        else if pr.isAdded = false then [⟨c.body, filePath, none⟩]
        else [⟨c.body, filePath, some l⟩]
  | none => [⟨c.body, filePath, none⟩]

/-- C3 counterexample: a comment on line 1 of this patch maps to a context
line (`isUnchanged = true`), and the caller loop contributes nothing for it
to the aggregated review — it is discarded, not demoted to a general
comment. -/
theorem unchanged_line_comment_dropped_cex :
    (calculatePositionFromPatch (some "@@ -1,2 +1,2 @@\n ctx\n+new") 1 Side.RIGHT).isUnchanged
      = true
    ∧ processOneComment "f.ts" (some "@@ -1,2 +1,2 @@\n ctx\n+new")
        ⟨"f.ts", some 1, "b"⟩ = [] :=
  ⟨by decide, by decide⟩

/-- C3 amended: for every candidate comment whose (truthy) line number maps
via `calculatePositionFromPatch` to a context line (`isUnchanged = true`),
the caller drops the comment entirely: it contributes no entry (neither
line-anchored nor general) to the aggregated review body. -/
theorem unchanged_line_comment_dropped (filename : String) (patch : Option String)
    (c : FileReviewComment) (l : Int) (hl : c.line = some l) (h0 : l ≠ 0)
    (hp : patchFalsy patch = false)
    (hu : (calculatePositionFromPatch patch l Side.RIGHT).isUnchanged = true) :
    processOneComment filename patch c = [] := by
  obtain ⟨_, p, _, _, hpos⟩ := calcPosition_isUnchanged_matched patch l Side.RIGHT hu
  simp only [processOneComment, hl, if_neg h0, hp, Bool.false_eq_true, if_false]
  rw [hpos]
  simp [hu]

/-- Witness for C3's amended claim at a concrete input. -/
theorem unchanged_line_comment_dropped_witness :
    processOneComment "g.ts" (some "@@ -1,2 +1,2 @@\n keep\n+add")
      ⟨"g.ts", some 1, "x"⟩ = [] :=
  unchanged_line_comment_dropped "g.ts" (some "@@ -1,2 +1,2 @@\n keep\n+add")
    ⟨"g.ts", some 1, "x"⟩ 1 rfl (by decide) (by decide) (by decide)

/-! ## TokenCache: `getInstallationToken` (github-api.service.ts, lines 391-504) -/

/-- A cached installation token with its expiry (Unix ms). -/
structure CachedToken where
  token : String
  expiresAt : Int
deriving DecidableEq

/-- The fresh-token path: key validation, JWT creation and the GitHub
exchange are collapsed into the `exchange` effect, which yields the token
and the optional `expiresAt` reported by the exchange (a failure anywhere
in that section is an `error`, rethrown by the source's catch block). The
new token is stored under the installation id with the reported expiry, or
one hour from `now` when none is reported. -/
def getFreshToken (cache : Nat → Option CachedToken) (installationId : Nat)
    (now : Int) (exchange : Except String (String × Option Int)) :
    Except String (String × (Nat → Option CachedToken)) :=
  match exchange with
  | .error e => .error e
  | .ok (token, expOpt) =>
    let expiresAt := match expOpt with
      | some e => e
      | none => now + 3600 * 1000
    .ok (token, fun j => if j = installationId then some ⟨token, expiresAt⟩ else cache j)

/-- `getInstallationToken(installationId)`: return the cached token while
`cached.expiresAt > now + bufferTime` (5-minute buffer), else exchange for
a fresh one. -/
def getInstallationToken (cache : Nat → Option CachedToken) (installationId : Nat)
    (now : Int) (exchange : Except String (String × Option Int)) :
    Except String (String × (Nat → Option CachedToken)) :=
  match cache installationId with
  | some cached =>
    if now + 5 * 60 * 1000 < cached.expiresAt then
      .ok (cached.token, cache)
    else getFreshToken cache installationId now exchange
  | none => getFreshToken cache installationId now exchange

/-- C5: the cached token is returned (cache unchanged) exactly when
strictly more than the 5-minute buffer remains before its expiry;
otherwise — expiring cache entry or cache miss — the credential exchange
runs, and on success the fresh token is stored keyed by installation id
with the exchange-supplied expiry (or `now + 1h` by default) and
returned. -/
theorem getInstallationToken_spec (cache : Nat → Option CachedToken)
    (id : Nat) (now : Int) (exchange : Except String (String × Option Int)) :
    (∀ c, cache id = some c → now + 5 * 60 * 1000 < c.expiresAt →
      getInstallationToken cache id now exchange = .ok (c.token, cache))
    ∧ (∀ c, cache id = some c → ¬ now + 5 * 60 * 1000 < c.expiresAt →
      getInstallationToken cache id now exchange = getFreshToken cache id now exchange)
    ∧ (cache id = none →
      getInstallationToken cache id now exchange = getFreshToken cache id now exchange)
    ∧ (∀ tok expOpt, exchange = .ok (tok, expOpt) →
      getFreshToken cache id now exchange =
        .ok (tok, fun j =>
          if j = id then some ⟨tok, expOpt.getD (now + 3600 * 1000)⟩ else cache j)) := by
  refine ⟨?_, ?_, ?_, ?_⟩
  · intro c hc hlt
    simp only [getInstallationToken, hc]
    rw [if_pos hlt]
  · intro c hc hlt
    simp only [getInstallationToken, hc]
    rw [if_neg hlt]
  · intro hc
    simp [getInstallationToken, hc]
  · intro tok expOpt hex
    cases expOpt <;> simp [getFreshToken, hex]

/-- Witness for C5: a cached token expiring far in the future is returned
unchanged; a cache miss with a successful exchange stores the token with
the default one-hour expiry. -/
theorem getInstallationToken_spec_witness :
    getInstallationToken
        (fun j => if j = 7 then some ⟨"tok", 1000000000⟩ else none) 7 0
        (.error "unused")
      = .ok ("tok", fun j => if j = 7 then some ⟨"tok", 1000000000⟩ else none)
    ∧ getFreshToken (fun _ => none) 7 0 (.ok ("t2", none))
      = .ok ("t2", fun j => if j = 7 then some ⟨"t2", 3600000⟩ else none) :=
  ⟨(getInstallationToken_spec (fun j => if j = 7 then some ⟨"tok", 1000000000⟩ else none)
      7 0 (.error "unused")).1 ⟨"tok", 1000000000⟩ rfl (by decide),
   (getInstallationToken_spec (fun _ => none) 7 0 (.ok ("t2", none))).2.2.2
      "t2" none rfl⟩

/-! ## `buildNoIssuesComment` (github-webhook.service, lines 623-636) -/

/-- `buildNoIssuesComment(fileCount)`: throws on a non-positive file count,
otherwise renders the summary body. -/
def buildNoIssuesComment (fileCount : Int) : Except String String :=
  if fileCount ≤ 0 then
    .error ("buildNoIssuesComment called with invalid fileCount: " ++ toString fileCount ++
      ". This function should only be called when there are files to review.")
  else
    .ok ("## Code Review Summary\n\n" ++
      ("Reviewed " ++ (toString fileCount ++ (" file" ++
        ((if fileCount ≠ 1 then "s" else "") ++ ".\n\n✅ No issues found. Great work!")))))

/-- Substring containment stated structurally. -/
def strContains (s sub : String) : Prop := ∃ a b, s = a ++ (sub ++ b)

/-- C9: `buildNoIssuesComment` raises exactly when the file count is at
most zero, and for a positive count returns a body that begins with the
literal header `## Code Review Summary`, states the number of files
reviewed, and states that no issues were found. -/
theorem buildNoIssuesComment_spec (n : Int) :
    ((∃ e, buildNoIssuesComment n = .error e) ↔ n ≤ 0)
    ∧ (1 ≤ n → ∃ body, buildNoIssuesComment n = .ok body
        ∧ (∃ rest, body = "## Code Review Summary" ++ rest)
        ∧ strContains body ("Reviewed " ++ toString n ++ " file")
        ∧ strContains body "No issues found") := by
  constructor
  · constructor
    · rintro ⟨e, he⟩
      by_contra hn
      simp only [buildNoIssuesComment, if_neg hn] at he
      exact Except.noConfusion he
    · intro hn
      exact ⟨"buildNoIssuesComment called with invalid fileCount: " ++ toString n ++
        ". This function should only be called when there are files to review.",
        by simp only [buildNoIssuesComment, if_pos hn]⟩
  · intro hn
    have hn0 : ¬ n ≤ 0 := by omega
    refine ⟨"## Code Review Summary\n\n" ++ ("Reviewed " ++ (toString n ++ (" file" ++
        ((if n ≠ 1 then "s" else "") ++ ".\n\n✅ No issues found. Great work!")))),
      ?_, ?_, ?_, ?_⟩
    · simp only [buildNoIssuesComment, if_neg hn0]
    · exact ⟨"\n\n" ++ ("Reviewed " ++ (toString n ++ (" file" ++
        ((if n ≠ 1 then "s" else "") ++ ".\n\n✅ No issues found. Great work!")))),
        by rw [show ("## Code Review Summary\n\n" : String) =
            "## Code Review Summary" ++ "\n\n" from by decide, String.append_assoc]⟩
    · refine ⟨"## Code Review Summary\n\n",
        (if n ≠ 1 then "s" else "") ++ ".\n\n✅ No issues found. Great work!", ?_⟩
      simp [String.append_assoc]
    · refine ⟨"## Code Review Summary\n\n" ++ ("Reviewed " ++ (toString n ++ (" file" ++
        ((if n ≠ 1 then "s" else "") ++ ".\n\n✅ ")))),
        ". Great work!", ?_⟩
      simp only [String.append_assoc]
      congr 5

/-- Witness for C9: at two files the body carries the header, the count
and the no-issues statement; at zero files the call raises. -/
theorem buildNoIssuesComment_spec_witness :
    (∃ body, buildNoIssuesComment 2 = .ok body
      ∧ (∃ rest, body = "## Code Review Summary" ++ rest)
      ∧ strContains body ("Reviewed " ++ toString (2 : Int) ++ " file")
      ∧ strContains body "No issues found")
    ∧ (∃ e, buildNoIssuesComment 0 = .error e) :=
  ⟨(buildNoIssuesComment_spec 2).2 (by decide),
   (buildNoIssuesComment_spec 0).1.mpr (by decide)⟩

/-! ## ResponseRecoverer: JSON value model and `JSON.parse`
(ai-review.service, `_parseAIResponse` and helpers, lines 477-852)

JSON numbers never undergo arithmetic in the modelled code, so they are
kept in exact decimal form `num mantissa fracLen exp` (value
`mantissa * 10 ^ (exp - fracLen)`); `undef` models JS `undefined`, which
`JSON.parse` never produces but property access on a missing key does. -/

inductive JVal where
  | null
  | jsUndefined
  | bool (b : Bool)
  | num (mantissa : Int) (fracLen : Nat) (exp : Int)
  | str (s : String)
  | arr (elems : List JVal)
  | obj (fields : List (String × JVal))

/-- JSON whitespace accepted by `JSON.parse`. -/
def jsonWs (c : Char) : Bool := c = ' ' || c = '\t' || c = '\n' || c = '\r'

def skipJsonWs : List Char → List Char
  | [] => []
  | c :: cs => if jsonWs c then skipJsonWs cs else c :: cs

def hexVal (c : Char) : Option Nat :=
  if c.isDigit then some (c.toNat - '0'.toNat)
  else if 'a' ≤ c ∧ c ≤ 'f' then some (c.toNat - 'a'.toNat + 10)
  else if 'A' ≤ c ∧ c ≤ 'F' then some (c.toNat - 'A'.toNat + 10)
  else none

/-- JSON string body after the opening quote: escapes, the `\uXXXX` form,
and rejection of raw control characters, as in strict `JSON.parse`.
(Lone-surrogate `\u` escapes collapse to `Char.ofNat`'s default; the
modelled code never relies on them.) -/
def parseJStringBody : Nat → List Char → List Char → Option (String × List Char)
  | 0, _, _ => none
  | fuel + 1, acc, cs =>
    match cs with
    | [] => none
    | '"' :: rest => some (String.mk acc.reverse, rest)
    | '\\' :: esc :: rest =>
      match esc with
      | '"' => parseJStringBody fuel ('"' :: acc) rest
      | '\\' => parseJStringBody fuel ('\\' :: acc) rest
      | '/' => parseJStringBody fuel ('/' :: acc) rest
      | 'b' => parseJStringBody fuel ('\x08' :: acc) rest
      | 'f' => parseJStringBody fuel ('\x0c' :: acc) rest
      | 'n' => parseJStringBody fuel ('\n' :: acc) rest
      | 'r' => parseJStringBody fuel ('\r' :: acc) rest
      | 't' => parseJStringBody fuel ('\t' :: acc) rest
      | 'u' =>
        match rest with
        | h1 :: h2 :: h3 :: h4 :: rest2 =>
          match hexVal h1, hexVal h2, hexVal h3, hexVal h4 with
          | some a, some b, some c, some d =>
            parseJStringBody fuel
              (Char.ofNat (((a * 16 + b) * 16 + c) * 16 + d) :: acc) rest2
          | _, _, _, _ => none
        | _ => none
      | _ => none
    | c :: rest => if c.toNat < 0x20 then none else parseJStringBody fuel (c :: acc) rest

def mkJNum (neg : Bool) (intDs fracDs : List Char) (exp : Int) : JVal :=
  let m : Int := digitsToNat (intDs ++ fracDs)
  .num (if neg then -m else m) fracDs.length exp

def finishJNum (neg : Bool) (intDs fracDs : List Char) (rest : List Char) :
    Option (JVal × List Char) :=
  match rest with
  | e :: r =>
    if e = 'e' ∨ e = 'E' then
      let (esign, r2) := match r with
        | '+' :: rr => (false, rr)
        | '-' :: rr => (true, rr)
        | _ => (false, r)
      let eds := r2.takeWhile Char.isDigit
      if eds.isEmpty then none
      else some (mkJNum neg intDs fracDs
        (if esign then -(digitsToNat eds : Int) else (digitsToNat eds : Int)),
        r2.dropWhile Char.isDigit)
    else some (mkJNum neg intDs fracDs 0, rest)
  | [] => some (mkJNum neg intDs fracDs 0, [])

/-- JSON number grammar: `-? (0 | [1-9][0-9]*) (. [0-9]+)? ([eE][+-]?[0-9]+)?`.
A leading `0` takes only itself, so `01` leaves a trailing digit that makes
the surrounding parse fail, as in `JSON.parse`. -/
def parseJNumber (cs : List Char) : Option (JVal × List Char) :=
  let p := match cs with
    | '-' :: r => (true, r)
    | _ => (false, cs)
  match p.2 with
  | c :: cs2 =>
    if ¬ c.isDigit then none
    else
      let q :=
        if c = '0' then ([c], cs2)
        else (c :: cs2.takeWhile Char.isDigit, cs2.dropWhile Char.isDigit)
      match q.2 with
      | '.' :: r =>
        let ds := r.takeWhile Char.isDigit
        if ds.isEmpty then none
        else finishJNum p.1 q.1 ds (r.dropWhile Char.isDigit)
      | _ => finishJNum p.1 q.1 [] q.2
  | [] => none

mutual

def parseJVal : Nat → List Char → Option (JVal × List Char)
  | 0, _ => none
  | fuel + 1, cs =>
    match skipJsonWs cs with
    | [] => none
    | c :: cs2 =>
      if c = '"' then
        match parseJStringBody (cs2.length + 1) [] cs2 with
        | some (s, rest) => some (.str s, rest)
        | none => none
      else if c = '[' then parseJArrTail fuel (skipJsonWs cs2)
      else if c = '{' then parseJObjTail fuel (skipJsonWs cs2)
      else if c = 't' then
        match cs2 with
        | 'r' :: 'u' :: 'e' :: rest => some (.bool true, rest)
        | _ => none
      else if c = 'f' then
        match cs2 with
        | 'a' :: 'l' :: 's' :: 'e' :: rest => some (.bool false, rest)
        | _ => none
      else if c = 'n' then
        match cs2 with
        | 'u' :: 'l' :: 'l' :: rest => some (.null, rest)
        | _ => none
      else if c = '-' ∨ c.isDigit then parseJNumber (c :: cs2)
      else none

def parseJArrTail : Nat → List Char → Option (JVal × List Char)
  | 0, _ => none
  | fuel + 1, cs =>
    match cs with
    | ']' :: rest => some (.arr [], rest)
    | _ => parseJArrItems fuel cs []

def parseJArrItems : Nat → List Char → List JVal → Option (JVal × List Char)
  | 0, _, _ => none
  | fuel + 1, cs, acc =>
    match parseJVal fuel cs with
    | none => none
    | some (v, rest) =>
      match skipJsonWs rest with
      | ',' :: rest2 => parseJArrItems fuel rest2 (v :: acc)
      | ']' :: rest2 => some (.arr (v :: acc).reverse, rest2)
      | _ => none

def parseJObjTail : Nat → List Char → Option (JVal × List Char)
  | 0, _ => none
  | fuel + 1, cs =>
    match cs with
    | '}' :: rest => some (.obj [], rest)
    | _ => parseJObjItems fuel cs []

def parseJObjItems : Nat → List Char → List (String × JVal) → Option (JVal × List Char)
  | 0, _, _ => none
  | fuel + 1, cs, acc =>
    match skipJsonWs cs with
    | '"' :: cs2 =>
      match parseJStringBody (cs2.length + 1) [] cs2 with
      | none => none
      | some (k, rest) =>
        match skipJsonWs rest with
        | ':' :: rest2 =>
          match parseJVal fuel rest2 with
          | none => none
          | some (v, rest3) =>
            match skipJsonWs rest3 with
            | ',' :: rest4 => parseJObjItems fuel rest4 ((k, v) :: acc)
            | '}' :: rest4 => some (.obj ((k, v) :: acc).reverse, rest4)
            | _ => none
        | _ => none
    | _ => none

end

/-- `JSON.parse(s)`: parse one value, then only trailing whitespace may
remain. The fuel bound is generous: the recursion consumes input at every
level. -/
def jsonParse (s : String) : Option JVal :=
  match parseJVal ((s.length + 1) * 8) s.data with
  | some (v, rest) => if (skipJsonWs rest).isEmpty then some v else none
  | none => none

/-- JS truthiness of a JSON value (`0`, `""`, `null`, `undefined`, `false`
are falsy; the numeric value is zero iff the mantissa is). -/
def truthy : JVal → Bool
  | .null => false
  | .jsUndefined => false
  | .bool b => b
  | .num m _ _ => m ≠ 0
  | .str s => s ≠ ""
  | .arr _ => true
  | .obj _ => true

/-- Last binding wins, as for duplicate keys in a JS object literal. -/
def lookupLast : List (String × JVal) → String → Option JVal
  | [], _ => none
  | (k0, v0) :: rest, k =>
    match lookupLast rest k with
    | some v => some v
    | none => if k0 = k then some v0 else none

/-- JS property read `v[k]`: a TypeError on `null`/`undefined`, the bound
value on objects, `undefined` on a missing key or any other receiver. -/
def jsGet : JVal → String → Except String JVal
  | .null, _ => .error "TypeError: cannot read properties of null"
  | .jsUndefined, _ => .error "TypeError: cannot read properties of undefined"
  | .obj fields, k => .ok ((lookupLast fields k).getD .jsUndefined)
  | _, _ => .ok .jsUndefined

/-- JS `v || d`. -/
def jsOr (v d : JVal) : JVal := if truthy v then v else d

/-- An AI review comment as assembled by `_parseAIResponse`; the fields
hold whatever JS values the untyped JSON carried. -/
structure AIReviewComment where
  file : JVal
  line : JVal
  body : JVal
  severity : JVal
  category : JVal
  fixSuggestion : JVal
  autoFixable : JVal

/-- The comment-mapping applied to each parsed element: default the file
to `defaultFilePath`, the severity to `suggestion`, the category to
`code-quality`, `autoFixable` to `false`. Property access on a `null`
element throws, as in JS. -/
def jsToComment (defaultFilePath : String) (c : JVal) : Except String AIReviewComment := do
  let f ← jsGet c "file"
  let l ← jsGet c "line"
  let b ← jsGet c "body"
  let sv ← jsGet c "severity"
  let cat ← jsGet c "category"
  let fx ← jsGet c "fixSuggestion"
  let af ← jsGet c "autoFixable"
  pure ⟨jsOr f (.str defaultFilePath), l, jsOr b (.str ""), jsOr sv (.str "suggestion"),
        jsOr cat (.str "code-quality"), fx, jsOr af (.bool false)⟩

/-- JS `String.prototype.trim`. -/
def jsTrim (s : String) : String :=
  String.mk (((s.data.dropWhile jsIsWs).reverse.dropWhile jsIsWs).reverse)

def ciStartsWithJson (cs : List Char) : Bool :=
  match cs with
  | a :: b :: c :: d :: _ =>
    a.toLower = 'j' && b.toLower = 's' && c.toLower = 'o' && d.toLower = 'n'
  | _ => false

/-- `replace(/^```(?:json)?\s*/i, "")`. -/
def stripLeadingFence (s : String) : String :=
  match s.data with
  | '`' :: '`' :: '`' :: rest =>
    let rest2 := if ciStartsWithJson rest then rest.drop 4 else rest
    String.mk (rest2.dropWhile jsIsWs)
  | _ => s

/-- `replace(/\s*```$/i, "")`: the leftmost match of whitespace followed by
a closing fence at the very end. -/
def stripTrailingFence (s : String) : String :=
  match s.data.reverse with
  | '`' :: '`' :: '`' :: rest => String.mk (rest.dropWhile jsIsWs).reverse
  | _ => s

/-- Scanner of `_extractJSONArray` from the first `[`: bracket depth with
string-literal and escape state. -/
def extractJSONArrayAux : List Char → Bool → Bool → Int → List Char → Option String
  | [], _, _, _, _ => none
  | c :: cs, inString, escapeNext, depth, acc =>
    if escapeNext then extractJSONArrayAux cs inString false depth (c :: acc)
    else if c = '\\' then extractJSONArrayAux cs inString true depth (c :: acc)
    else if c = '"' then extractJSONArrayAux cs (!inString) false depth (c :: acc)
    else if !inString && c = '[' then extractJSONArrayAux cs inString false (depth + 1) (c :: acc)
    else if !inString && c = ']' then
      if depth - 1 = 0 then some (String.mk (c :: acc).reverse)
      else extractJSONArrayAux cs inString false (depth - 1) (c :: acc)
    else extractJSONArrayAux cs inString false depth (c :: acc)

/-- `_extractJSONArray(text)`: the substring from the first `[` to its
matching `]`, or null. -/
def extractJSONArray (text : String) : Option String :=
  match text.data.dropWhile (fun c => c ≠ '[') with
  | [] => none
  | cs => extractJSONArrayAux cs false false 0 []

/-- `replace(/,(\s*[}\]])/g, "$1")`: drop a comma standing before
whitespace and a closing bracket; scanning resumes after the match. -/
def stripTrailingCommasF : Nat → List Char → List Char
  | 0, cs => cs
  | _ + 1, [] => []
  | fuel + 1, ',' :: cs =>
    let ws := cs.takeWhile jsIsWs
    match cs.dropWhile jsIsWs with
    | c :: rest2 =>
      if c = '}' ∨ c = ']' then ws ++ c :: stripTrailingCommasF fuel rest2
      else ',' :: stripTrailingCommasF fuel cs
    | [] => ',' :: stripTrailingCommasF fuel cs
  | fuel + 1, c :: cs => c :: stripTrailingCommasF fuel cs

/-- `replace(/\/\/.*$/gm, "")` on one line: cut at the first `//`. -/
def stripLineComment1 : List Char → List Char
  | [] => []
  | '/' :: '/' :: _ => []
  | c :: cs => c :: stripLineComment1 cs

def stripLineComments (cs : List Char) : List Char :=
  joinNLc ((splitNLc cs).map stripLineComment1)

def dropToStarSlash : List Char → Option (List Char)
  | [] => none
  | '*' :: '/' :: rest => some rest
  | _ :: cs => dropToStarSlash cs

/-- `replace(/\/\*[\s\S]*?\*\//g, "")`: lazily matched block comments; a
`/*` with no later `*/` matches nothing (and then nothing later can). -/
def stripBlockCommentsF : Nat → List Char → List Char
  | 0, cs => cs
  | _ + 1, [] => []
  | fuel + 1, '/' :: '*' :: cs =>
    match dropToStarSlash cs with
    | some rest => stripBlockCommentsF fuel rest
    | none => '/' :: '*' :: cs
  | fuel + 1, c :: cs => c :: stripBlockCommentsF fuel cs

def hexDigit (n : Nat) : Char :=
  if n < 10 then Char.ofNat ('0'.toNat + n) else Char.ofNat ('a'.toNat + n - 10)

/-- `charCode.toString(16).padStart(4, "0")` for code points below 0x10000. -/
def hexDigits4 (n : Nat) : List Char :=
  [hexDigit (n / 4096 % 16), hexDigit (n / 256 % 16), hexDigit (n / 16 % 16), hexDigit (n % 16)]

/-- `_escapeControlCharactersInStrings`: escape raw control characters
inside string literals, tracking string and escape state. -/
def escCtrlAux : List Char → Bool → Bool → List Char
  | [], _, _ => []
  | c :: cs, inString, escapeNext =>
    if escapeNext then c :: escCtrlAux cs inString false
    else if c = '\\' then c :: escCtrlAux cs inString true
    else if c = '"' then c :: escCtrlAux cs (!inString) false
    else if inString && c.toNat < 0x20 then
      (if c = '\n' then ['\\', 'n']
       else if c = '\r' then ['\\', 'r']
       else if c = '\t' then ['\\', 't']
       else '\\' :: 'u' :: hexDigits4 c.toNat) ++ escCtrlAux cs inString false
    else c :: escCtrlAux cs inString false

/-- `_fixCommonJSONErrors`: trailing commas, then `//` comments, then
`/* */` comments, then control characters in strings. -/
def fixCommonJSONErrors (json : String) : String :=
  let s1 := stripTrailingCommasF (json.data.length + 1) json.data
  let s2 := stripLineComments s1
  let s3 := stripBlockCommentsF (s2.length + 1) s2
  String.mk (escCtrlAux s3 false false)

/-- `_isLikelyTruncated`. -/
def isLikelyTruncated (json : String) : Bool :=
  let t := (jsTrim json).data
  if !(t.reverse.head? = some ']' || t.reverse.head? = some '}') then true
  else if t.countP (· = '[') ≠ t.countP (· = ']')
       || t.countP (· = '{') ≠ t.countP (· = '}') then true
  else if t.reverse.head? = some ',' then true
  else false

def ciLine : List Char → Option (List Char)
  | a :: b :: c :: d :: rest =>
    if a.toLower = 'l' && b.toLower = 'i' && c.toLower = 'n' && d.toLower = 'e' then
      some rest
    else none
  | _ => none

/-- Match `/line\s+(\d+)/i` at this position. -/
def matchLineNumAt (cs : List Char) : Option Nat :=
  match ciLine cs with
  | none => none
  | some rest =>
    if (rest.takeWhile jsIsWs).isEmpty then none
    else
      let rest2 := rest.dropWhile jsIsWs
      let ds := rest2.takeWhile Char.isDigit
      if ds.isEmpty then none else some (digitsToNat ds)

/-- Leftmost match of `/line\s+(\d+)/i` in a line. -/
def findLineNum : List Char → Option Nat
  | [] => none
  | c :: cs =>
    match matchLineNumAt (c :: cs) with
    | some n => some n
    | none => findLineNum cs

/-- The line-scanning loop of `_extractCommentsFromText`; `cur` is the
comment under accumulation (line number and body so far). -/
def extractCommentsLoop (defaultFilePath : String) :
    List String → Option (Nat × String) → List AIReviewComment
  | [], cur =>
    match cur with
    | some (n, b) =>
      [⟨.str defaultFilePath, .num n 0 0, .str b, .str "suggestion",
        .str "code-quality", .jsUndefined, .jsUndefined⟩]
    | none => []
  | line :: rest, cur =>
    match findLineNum line.data with
    | some n =>
      (match cur with
        | some (n0, b0) =>
          [⟨.str defaultFilePath, .num n0 0 0, .str b0, .str "suggestion",
            .str "code-quality", .jsUndefined, .jsUndefined⟩]
        | none => []) ++
      extractCommentsLoop defaultFilePath rest (some (n, line))
    | none =>
      match cur with
      | some (n0, b0) =>
        extractCommentsLoop defaultFilePath rest (some (n0, b0 ++ "\n" ++ line))
      | none => extractCommentsLoop defaultFilePath rest none

/-- `_extractCommentsFromText`: heuristic plain-text extraction; if nothing
was recognised and the text is non-empty, one general comment with the
trimmed text. -/
def extractCommentsFromText (text : String) (defaultFilePath : String) :
    List AIReviewComment :=
  let comments := extractCommentsLoop defaultFilePath (splitNL text) none
  if comments.isEmpty && jsTrim text ≠ "" then
    [⟨.str defaultFilePath, .jsUndefined, .str (jsTrim text), .str "suggestion",
      .str "code-quality", .jsUndefined, .jsUndefined⟩]
  else comments

def notBrace (c : Char) : Bool := c ≠ '{' && c ≠ '}'

/-- The star-loop of the regex `\{[^{}]*(?:\{[^{}]*\}[^{}]*)*\}` after the
opening brace and first `[^{}]*` run have been consumed into `acc`
(reversed). -/
def matchBraceLoop : Nat → List Char → List Char → Option (List Char × List Char)
  | 0, _, _ => none
  | fuel + 1, acc, cs =>
    match cs with
    | '}' :: rest => some (('}' :: acc).reverse, rest)
    | '{' :: rest =>
      let nb2 := rest.takeWhile notBrace
      match rest.dropWhile notBrace with
      | '}' :: rest2 =>
        let nb3 := rest2.takeWhile notBrace
        matchBraceLoop fuel (nb3.reverse ++ '}' :: nb2.reverse ++ '{' :: acc)
          (rest2.dropWhile notBrace)
      | _ => none
    | _ => none

/-- Match the brace-group regex at this position (must start with a brace). -/
def matchBraceAt (cs : List Char) : Option (List Char × List Char) :=
  match cs with
  | '{' :: rest =>
    let nb1 := rest.takeWhile notBrace
    matchBraceLoop (cs.length + 1) (nb1.reverse ++ ['{']) (rest.dropWhile notBrace)
  | _ => none

/-- Global scan for `truncatedJson.match(/\{[^{}]*(?:\{[^{}]*\}[^{}]*)*\}/g)`:
leftmost non-overlapping matches, resuming after each match. -/
def braceMatchesAux : Nat → List Char → List String
  | 0, _ => []
  | _ + 1, [] => []
  | fuel + 1, c :: cs =>
    if c = '{' then
      match matchBraceAt (c :: cs) with
      | some (m, rest) => String.mk m :: braceMatchesAux fuel rest
      | none => braceMatchesAux fuel cs
    else braceMatchesAux fuel cs

def braceMatches (s : String) : List String := braceMatchesAux (s.data.length + 1) s.data

/-- `_extractPartialComments`: parse each complete brace group
independently, keep those with a truthy `body` or `file`; a failing parse
is skipped by the per-object catch. -/
def extractPartialComments (truncatedJson : String) (defaultFilePath : String) :
    List AIReviewComment :=
  (braceMatches truncatedJson).foldl (fun acc m =>
    match jsonParse m with
    | none => acc
    | some parsed =>
      match (do
        let b ← jsGet parsed "body"
        let f ← jsGet parsed "file"
        if truthy b || truthy f then
          let c ← jsToComment defaultFilePath parsed
          pure (some c)
        else
          pure none : Except String (Option AIReviewComment)) with
      | .ok (some c) => acc ++ [c]
      | .ok none => acc
      | .error _ => acc) []

def isErrorFailed (v : JVal) : Bool :=
  match v with
  | .str s => s = "failed"
  | _ => false

/-- The `try` block of `_parseAIResponse`: strict parse; the sentinel
`error: "failed"` object falls back to text extraction (of the original
response); an array or a single object is mapped into comments; any other
value completes the block without a return (`some` = the block returned,
`none` = fall through to the final `return []`; `error` = a thrown
`SyntaxError` or `TypeError`, handled by the catch). -/
def parseStrictTry (cleaned response defaultFilePath : String) :
    Except String (Option (List AIReviewComment)) := do
  match jsonParse cleaned with
  | none => throw "SyntaxError: Unexpected token in JSON"
  | some json =>
    let err ← jsGet json "error"
    if isErrorFailed err then
      return some (extractCommentsFromText response defaultFilePath)
    else
      match json with
      | .arr elems => do
        let cs ← elems.mapM (jsToComment defaultFilePath)
        return some cs
      | .obj _ => do
        let c ← jsToComment defaultFilePath json
        return some [c]
      | _ => return none

/-- The inner `try` of the fallback path: repair the extracted array text
and strictly parse it; only an array produces a return. -/
def innerRepairTry (jsonMatch defaultFilePath : String) :
    Except String (Option (List AIReviewComment)) := do
  match jsonParse (fixCommonJSONErrors jsonMatch) with
  | none => throw "SyntaxError: Unexpected token in JSON"
  | some parsed =>
    match parsed with
    | .arr elems => do
      let cs ← elems.mapM (jsToComment defaultFilePath)
      return some cs
    | _ => return none

/-- The catch block of `_parseAIResponse`: bracket extraction and repair,
then the truncation check routing to partial extraction, else plain-text
extraction (of the original response). -/
def parseFallback (cleaned response defaultFilePath : String) (isTruncated : Bool) :
    List AIReviewComment :=
  let afterInner : List AIReviewComment :=
    if isTruncated || isLikelyTruncated cleaned then
      extractPartialComments cleaned defaultFilePath
    else
      extractCommentsFromText response defaultFilePath
  match extractJSONArray cleaned with
  | none => afterInner
  | some jsonMatch =>
    match innerRepairTry jsonMatch defaultFilePath with
    | .ok (some cs) => cs
    | .ok none => afterInner
    | .error _ => afterInner

/-- The fence-stripping preamble of `_parseAIResponse`. -/
def cleanResponse (response : String) : String :=
  jsTrim (stripTrailingFence (stripLeadingFence (jsTrim response)))

/-- `_parseAIResponse(response, defaultFilePath, isTruncated)`, with every
throw site tracked in `Except`: an uncaught exception would surface as
`error`. -/
def parseAIResponseE (response defaultFilePath : String) (isTruncated : Bool) :
    Except String (List AIReviewComment) :=
  let cleaned := cleanResponse response
  match parseStrictTry cleaned response defaultFilePath with
  | .ok (some cs) => .ok cs
  | .ok none => .ok []
  | .error _ => .ok (parseFallback cleaned response defaultFilePath isTruncated)

/-- C1: for every raw model output, default file path and truncation hint,
`_parseAIResponse` terminates with an `ok` list of comments (possibly
empty): every throw site (strict `JSON.parse`, property access on `null`,
the repair re-parse) is inside a catch, so no exception escapes. -/
theorem parseAIResponse_never_throws (response defaultFilePath : String)
    (isTruncated : Bool) :
    ∃ comments : List AIReviewComment,
      parseAIResponseE response defaultFilePath isTruncated = .ok comments := by
  cases h : parseStrictTry (cleanResponse response) response defaultFilePath with
  | ok o =>
    cases o with
    | none => exact ⟨[], by simp [parseAIResponseE, h]⟩
    | some cs => exact ⟨cs, by simp [parseAIResponseE, h]⟩
  | error e =>
    exact ⟨parseFallback (cleanResponse response) response defaultFilePath isTruncated,
      by simp [parseAIResponseE, h]⟩

/-- C8: on the truncated input
`[{"file":"a.ts","line":1,"body":"ok"},{"file":"a.ts","lin` with default
path "d" and truncation hint true, the recoverer yields exactly the one
complete comment (file "a.ts", line 1, body "ok") and discards the
incomplete second object. -/
theorem recover_truncated_yields_complete_object :
    parseAIResponseE
      "[\x7b\"file\":\"a.ts\",\"line\":1,\"body\":\"ok\"\x7d,\x7b\"file\":\"a.ts\",\"lin"
      "d" true =
    .ok [⟨.str "a.ts", .num 1 0 0, .str "ok", .str "suggestion", .str "code-quality",
      .jsUndefined, .bool false⟩] := by
  rfl

/-! ## `generateReviewComments` (ai-review.service, lines 48-144) -/

/-- The service configuration fields relevant here; the constructor
resolves them with JS `||` defaulting (so an explicit 0 also takes the
default). -/
structure AIReviewConfig where
  maxComments : Option Nat
  chunkSize : Option Nat

/-- JS `x || d` for an optional numeric config field. -/
def resolveNat (o : Option Nat) (d : Nat) : Nat :=
  match o with
  | none => d
  | some 0 => d
  | some n => n

/-- `generateReviewComments`: a file larger than the chunk size is split
and each chunk sent to the model (`aiCall i` is the parsed result of the
model call for chunk `i`; `none` models a thrown call, which the loop's
catch skips); otherwise one call is made, and on failure the rule-based
`fallbackComments` (the formatter's output for the static-analysis
results) are used. The merged list is cut to `maxComments` at the end. -/
def generateReviewComments (cfg : AIReviewConfig) (fileContent : String)
    (aiCall : Nat → Option (List AIReviewComment))
    (fallbackComments : List AIReviewComment) : List AIReviewComment :=
  let chunkSize := resolveNat cfg.chunkSize 20000
  let comments :=
    if fileContent.length > chunkSize then
      ((List.range (splitFileIntoChunks fileContent chunkSize).length).map
        (fun i => (aiCall i).getD [])).flatten
    else
      match aiCall 0 with
      | some cs => cs
      | none => fallbackComments
  comments.take (resolveNat cfg.maxComments 10)

/-- C10: whatever the model returns per chunk and whatever the
static-analysis fallback produces, `generateReviewComments` returns at
most `maxComments` comments, where an unset (or zero) `maxComments`
resolves to the default 10. -/
theorem generateReviewComments_bounded (cfg : AIReviewConfig) (fileContent : String)
    (aiCall : Nat → Option (List AIReviewComment))
    (fallbackComments : List AIReviewComment) :
    (generateReviewComments cfg fileContent aiCall fallbackComments).length ≤
      resolveNat cfg.maxComments 10
    ∧ resolveNat none 10 = 10 ∧ resolveNat (some 0) 10 = 10 :=
  ⟨List.length_take_le _ _, rfl, rfl⟩
